import Mathlib

/-!
Shallow embedding of the image-editing application's core:
the block-averaging ("mosaic") engine (`ImageProcessor._processMosaic`,
`_processMosaicWithMask` and their helpers), the undo/redo history stack
(`HistoryManager`), the selection state machine (`SelectionManager`),
and the `processImage` orchestration of `MosaicApp`.

Pixel buffers are flat lists of naturals (bytes of a `Uint8ClampedArray`,
RGBA interleaved, row-major).  The imperative loops of the source become
folds over their iteration spaces; in-place writes become `List.set`.
-/

namespace MosaicApp

/-- One decoded raster, as in the browser `ImageData` values the code
manipulates: width, height and the flat RGBA byte buffer
(`data.length = width * height * 4` for well-formed images). -/
structure ImageData where
  width : Nat
  height : Nat
  data : List Nat
deriving Repr, DecidableEq

/-- Storing into a `Uint8ClampedArray` clamps the value into `0..255`
(values here are naturals, so only the upper clamp can act). -/
def clamp255 (v : Nat) : Nat := min v 255

/-- `Math.round (num / den)` for a natural numerator and positive
denominator: the floor of `num / den + 1 / 2`. -/
def jsRound (num den : Nat) : Nat := (2 * num + den) / (2 * den)

/-- Byte offset of the first (red) channel of pixel `(x, y)`:
`(y * width + x) * 4`. -/
def pixIndex (width x y : Nat) : Nat := (y * width + x) * 4

/-- Select one component of an `{r, g, b}` color triple by channel number
(0 = red, 1 = green, anything else = blue). -/
def channelOf (color : Nat × Nat × Nat) (c : Nat) : Nat :=
  if c = 0 then color.1 else if c = 1 then color.2.1 else color.2.2

/-- Iteration space of the nested block loops
`for (y = startY; y < endY; y++) for (x = startX; x < endX; x++)`
with `endX = min (startX + blockSize) width` and
`endY = min (startY + blockSize) height`, listing the visited `(x, y)`. -/
def blockPixels (startX startY blockSize width height : Nat) : List (Nat × Nat) :=
  (List.range' startY (min (startY + blockSize) height - startY)).flatMap fun y =>
    (List.range' startX (min (startX + blockSize) width - startX)).map fun x => (x, y)

/-- `_calculateAverageColor`: sums of the R, G and B channels over one
block's pixels, each put through `Math.round (sum / count)`. -/
def calculateAverageColor (data : List Nat) (startX startY blockSize width height : Nat) :
    Nat × Nat × Nat :=
  let pixels := blockPixels startX startY blockSize width height
  let count := pixels.length
  let r := (pixels.map fun p => data.getD (pixIndex width p.1 p.2) 0).sum
  let g := (pixels.map fun p => data.getD (pixIndex width p.1 p.2 + 1) 0).sum
  let b := (pixels.map fun p => data.getD (pixIndex width p.1 p.2 + 2) 0).sum
  (jsRound r count, jsRound g count, jsRound b count)

/-- One loop body of `_fillBlock`: store the color's three channels at a
pixel's R, G and B offsets (the alpha byte at offset 3 is not written). -/
def writePixel (width : Nat) (color : Nat × Nat × Nat) (d : List Nat) (p : Nat × Nat) :
    List Nat :=
  let i := pixIndex width p.1 p.2
  ((d.set i (clamp255 color.1)).set (i + 1) (clamp255 color.2.1)).set
    (i + 2) (clamp255 color.2.2)

/-- `_fillBlock`: paint every pixel of one block with the given color. -/
def fillBlock (data : List Nat) (startX startY blockSize width height : Nat)
    (color : Nat × Nat × Nat) : List Nat :=
  (blockPixels startX startY blockSize width height).foldl (writePixel width color) data

/-- The values visited by a loop `for (v = 0; v < len; v += step)`. -/
def blockStarts (len step : Nat) : List Nat :=
  (List.range ((len + step - 1) / step)).map fun k => k * step

/-- The `(x, y)` block origins visited by the outer loops of
`_processMosaic` / `_processMosaicWithMask` (`y` outer, `x` inner). -/
def tileOrigins (width height blockSize : Nat) : List (Nat × Nat) :=
  (blockStarts height blockSize).flatMap fun y =>
    (blockStarts width blockSize).map fun x => (x, y)

/-- `_processMosaic`: for each block, compute its average color from the
current buffer, then fill the whole block with it. -/
def processMosaic (img : ImageData) (blockSize : Nat) : ImageData :=
  { img with
    data :=
      (tileOrigins img.width img.height blockSize).foldl
        (fun d t =>
          fillBlock d t.1 t.2 blockSize img.width img.height
            (calculateAverageColor d t.1 t.2 blockSize img.width img.height))
        img.data }

/-- `_hasSelectedPixels`: does the block contain a pixel whose mask
channel-0 byte exceeds 127? -/
def hasSelectedPixels (maskData : List Nat) (startX startY blockSize width height : Nat) :
    Bool :=
  (blockPixels startX startY blockSize width height).any fun p =>
    127 < maskData.getD (pixIndex width p.1 p.2) 0

/-- One loop body of `_fillBlockWithMask`: write the color only when the
mask marks the pixel selected (`maskData[index] > 127`). -/
def writePixelMasked (maskData : List Nat) (width : Nat) (color : Nat × Nat × Nat)
    (d : List Nat) (p : Nat × Nat) : List Nat :=
  let i := pixIndex width p.1 p.2
  if 127 < maskData.getD i 0 then
    ((d.set i (clamp255 color.1)).set (i + 1) (clamp255 color.2.1)).set
      (i + 2) (clamp255 color.2.2)
  else d

/-- `_fillBlockWithMask`: paint only the mask-selected pixels of a block. -/
def fillBlockWithMask (data maskData : List Nat) (startX startY blockSize width height : Nat)
    (color : Nat × Nat × Nat) : List Nat :=
  (blockPixels startX startY blockSize width height).foldl
    (writePixelMasked maskData width color) data

/-- `_processMosaicWithMask`: skip blocks with no selected pixel; for the
others, average over the whole block and fill only the selected pixels. -/
def processMosaicWithMask (img : ImageData) (blockSize : Nat) (selectionMask : ImageData) :
    ImageData :=
  { img with
    data :=
      (tileOrigins img.width img.height blockSize).foldl
        (fun d t =>
          if hasSelectedPixels selectionMask.data t.1 t.2 blockSize img.width img.height then
            fillBlockWithMask d selectionMask.data t.1 t.2 blockSize img.width img.height
              (calculateAverageColor d t.1 t.2 blockSize img.width img.height)
          else d)
        img.data }

/-- One retained history snapshot (`saveState` also stores a timestamp,
which nothing reads back; it is omitted here). -/
structure HistoryEntry where
  imageData : ImageData
  actionName : String
deriving Repr, DecidableEq

/-- The `HistoryManager` fields: the entry stack, the current position
(`-1` before any save, hence an integer), and the capacity. -/
structure HistoryState where
  history : List HistoryEntry
  currentIndex : Int
  maxHistorySize : Nat
deriving Repr, DecidableEq

/-- The `HistoryManager` constructor. -/
def historyNew (maxHistorySize : Nat) : HistoryState :=
  { history := [], currentIndex := -1, maxHistorySize := maxHistorySize }

/-- `cloneImageData`: a fresh `ImageData` with a copied buffer (copying is
identity in this pure model, but the call sites are kept). -/
def cloneImageData (imageData : ImageData) : ImageData :=
  { width := imageData.width, height := imageData.height, data := imageData.data }

/-- `saveState`: drop the redo branch past `currentIndex`, append a clone,
point at it, then evict the oldest entry if over capacity. -/
def saveState (s : HistoryState) (imageData : ImageData) (actionName : String) :
    HistoryState :=
  let hist :=
    if s.currentIndex < (s.history.length : Int) - 1 then
      s.history.take (s.currentIndex + 1).toNat
    else s.history
  let hist := hist ++ [{ imageData := cloneImageData imageData, actionName := actionName }]
  if s.maxHistorySize < hist.length then
    { s with history := hist.drop 1, currentIndex := (hist.length : Int) - 2 }
  else
    { s with history := hist, currentIndex := (hist.length : Int) - 1 }

/-- `canUndo`: `currentIndex > 0`. -/
def canUndo (s : HistoryState) : Bool := 0 < s.currentIndex

/-- `canRedo`: `currentIndex < history.length - 1`. -/
def canRedo (s : HistoryState) : Bool := s.currentIndex < (s.history.length : Int) - 1

/-- `undo`: when possible, step `currentIndex` back and return a clone of
the raster now pointed at, else return nothing and leave the state. -/
def undo (s : HistoryState) : Option ImageData × HistoryState :=
  if canUndo s then
    let s' := { s with currentIndex := s.currentIndex - 1 }
    ((s'.history[s'.currentIndex.toNat]?).map fun e => cloneImageData e.imageData, s')
  else (none, s)

/-- `redo`: when possible, step `currentIndex` forward and return a clone
of the raster now pointed at, else return nothing and leave the state. -/
def redo (s : HistoryState) : Option ImageData × HistoryState :=
  if canRedo s then
    let s' := { s with currentIndex := s.currentIndex + 1 }
    ((s'.history[s'.currentIndex.toNat]?).map fun e => cloneImageData e.imageData, s')
  else (none, s)

/-- `getCurrentActionName`: the label under `currentIndex`, when in range. -/
def getCurrentActionName (s : HistoryState) : Option String :=
  if 0 ≤ s.currentIndex ∧ s.currentIndex < (s.history.length : Int) then
    (s.history[s.currentIndex.toNat]?).map fun e => e.actionName
  else none

/-- `clear`: empty the stack and reset `currentIndex` to `-1`. -/
def clearHistory (s : HistoryState) : HistoryState :=
  { s with history := [], currentIndex := -1 }

/-- A sequence of `saveState` calls. -/
def pushAll (s : HistoryState) (l : List (ImageData × String)) : HistoryState :=
  l.foldl (fun s p => saveState s p.1 p.2) s

/-- The three selection modes of `SelectionManager`. -/
inductive SelMode
  | rectangle
  | freehand
  | full
deriving Repr, DecidableEq

/-- A point in image-pixel space (real-valued in the source; rationals
here). -/
structure Pt where
  x : Rat
  y : Rat
deriving Repr, DecidableEq

/-- A confirmed rectangle selection `{x, y, width, height}`. -/
structure Rect where
  x : Rat
  y : Rat
  width : Rat
  height : Rat
deriving Repr, DecidableEq

/-- The observable `SelectionManager` fields (canvas/overlay handles and
drawing are UI collaborators and carry no model state). -/
structure SelState where
  isSelecting : Bool
  selectionMode : SelMode
  selectionPath : List Pt
  rectangleSelection : Option Rect
  isConfirmed : Bool
  startPoint : Option Pt
  currentPoint : Option Pt
deriving Repr, DecidableEq

/-- The `SelectionManager` constructor state. -/
def selInit : SelState :=
  { isSelecting := false, selectionMode := .rectangle, selectionPath := [],
    rectangleSelection := none, isConfirmed := false, startPoint := none,
    currentPoint := none }

/-- `hasSelection`. -/
def hasSelection (s : SelState) : Bool :=
  match s.selectionMode with
  | .full => s.isConfirmed
  | .rectangle => s.rectangleSelection.isSome && s.isConfirmed
  | .freehand => !s.selectionPath.isEmpty && s.isConfirmed

/-- `isSelectionConfirmed`: always confirmed in full mode. -/
def isSelectionConfirmed (s : SelState) : Bool :=
  match s.selectionMode with
  | .full => true
  | _ => s.isConfirmed

/-- `clearSelection(resetToDefault)`: drop geometry and drag state; with
`resetToDefault` also fall back to rectangle mode; outside full mode the
confirmed flag is cleared, in full mode (without reset) it is kept. -/
def clearSelection (resetToDefault : Bool) (s : SelState) : SelState :=
  let s := { s with isSelecting := false, selectionPath := [],
                    rectangleSelection := none, startPoint := none, currentPoint := none }
  if resetToDefault then
    { s with selectionMode := .rectangle, isConfirmed := false }
  else if s.selectionMode ≠ .full then
    { s with isConfirmed := false }
  else s

/-- `setSelectionMode`: set the mode, clear the selection, then confirm
automatically only when newly entering full mode. -/
def setSelectionMode (mode : SelMode) (s : SelState) : SelState :=
  let previousMode := s.selectionMode
  let s := clearSelection false { s with selectionMode := mode }
  if mode = .full ∧ previousMode ≠ .full then
    { s with isConfirmed := true }
  else if mode ≠ .full then
    { s with isConfirmed := false }
  else s

/-- `handleMouseDown` (left button only): begin a drag, reset the
confirmed flag, and in freehand mode restart the path at this point. -/
def handleMouseDown (button : Nat) (point : Pt) (s : SelState) : SelState :=
  if button ≠ 0 then s
  else
    { s with startPoint := some point, currentPoint := some point,
             isSelecting := true, isConfirmed := false,
             selectionPath :=
               if s.selectionMode = .freehand then [point] else s.selectionPath }

/-- `handleMouseMove`: while dragging, track the current point and in
freehand mode append it to the path. -/
def handleMouseMove (point : Pt) (s : SelState) : SelState :=
  if !s.isSelecting then s
  else
    { s with currentPoint := some point,
             selectionPath :=
               if s.selectionMode = .freehand then s.selectionPath ++ [point]
               else s.selectionPath }

/-- `finalizeRectangleSelection`: box of start/current; below the 5×5
threshold the selection is cleared, otherwise stored and confirmed.
(The source dereferences `startPoint`/`currentPoint`, which are set in
every reachable call; on `none` the state is returned unchanged.) -/
def finalizeRectangleSelection (s : SelState) : SelState :=
  match s.startPoint, s.currentPoint with
  | some sp, some cp =>
      let width := |cp.x - sp.x|
      let height := |cp.y - sp.y|
      if width < 5 ∨ height < 5 then clearSelection false s
      else
        { s with rectangleSelection :=
                   some { x := min sp.x cp.x, y := min sp.y cp.y,
                          width := width, height := height },
                 isConfirmed := true }
  | _, _ => s

/-- `finalizeFreehandSelection`: paths shorter than 10 points are cleared;
otherwise the first point is appended to close the path and the selection
is confirmed. -/
def finalizeFreehandSelection (s : SelState) : SelState :=
  if s.selectionPath.length < 10 then clearSelection false s
  else
    match s.selectionPath with
    | [] => { s with isConfirmed := true }
    | p :: _ => { s with selectionPath := s.selectionPath ++ [p], isConfirmed := true }

/-- `handleMouseUp` (left button, only while dragging): stop the drag and
finalize according to the mode. -/
def handleMouseUp (button : Nat) (s : SelState) : SelState :=
  if button ≠ 0 ∨ !s.isSelecting then s
  else
    let s := { s with isSelecting := false }
    if s.selectionMode = .rectangle then finalizeRectangleSelection s
    else if s.selectionMode = .freehand then finalizeFreehandSelection s
    else s

/-- `handleRightClick`: clear only when a confirmed selection exists. -/
def handleRightClick (s : SelState) : SelState :=
  if hasSelection s ∧ s.isConfirmed then clearSelection false s else s

/-- `clearSelectionKeepMode`: drop geometry and the confirmed flag (in
every mode) while keeping the mode. -/
def clearSelectionKeepMode (s : SelState) : SelState :=
  { s with isSelecting := false, selectionPath := [], rectangleSelection := none,
           startPoint := none, currentPoint := none, isConfirmed := false }

/-- The pointer/clear events a user can send to the selection model. -/
inductive SelOp
  | mouseDown (button : Nat) (point : Pt)
  | mouseMove (point : Pt)
  | mouseUp (button : Nat)
  | rightClick
  | clear
deriving Repr, DecidableEq

/-- Apply one selection event. -/
def applySelOp (o : SelOp) (s : SelState) : SelState :=
  match o with
  | .mouseDown b p => handleMouseDown b p s
  | .mouseMove p => handleMouseMove p s
  | .mouseUp b => handleMouseUp b s
  | .rightClick => handleRightClick s
  | .clear => clearSelection false s

/-- Apply a sequence of selection events. -/
def applySelOps (ops : List SelOp) (s : SelState) : SelState :=
  ops.foldl (fun s o => applySelOp o s) s

/-- What one `MosaicApp.processImage` call does, as a function of the
guards it reads (image presence, the re-entrancy flag, and the selection
state). -/
inductive ProcessOutcome
  | skipped
  | invalidOp
  | applied (usedMask : Bool)
deriving Repr, DecidableEq

/-- The control flow of `processImage`: return at once when busy or
imageless; show the "confirm your selection" error when a non-full-mode
selection exists unconfirmed; otherwise run the mosaic (masked exactly
when a selection exists outside full mode) and push history. -/
def processImageOutcome (hasImage isProcessing : Bool) (sel : SelState) : ProcessOutcome :=
  if isProcessing || !hasImage then .skipped
  else if sel.selectionMode ≠ .full ∧ hasSelection sel = true ∧
          isSelectionConfirmed sel = false then .invalidOp
  else .applied (hasSelection sel && decide (sel.selectionMode ≠ .full))

/-- The history entry `saveState` builds (the stored raster is a clone;
cloning is the identity in this pure model). -/
def mkEntry (img : ImageData) (a : String) : HistoryEntry :=
  { imageData := img, actionName := a }

/-- A concrete 2×2 RGBA raster. -/
def imgEx : ImageData :=
  { width := 2, height := 2,
    data := [10, 20, 30, 40, 20, 40, 60, 50, 30, 60, 90, 60, 40, 80, 120, 70] }

/-- A concrete 2×2 mask selecting only pixel `(0, 0)`. -/
def maskEx : ImageData :=
  { width := 2, height := 2,
    data := [255, 0, 0, 0, 0, 0, 0, 0, 0, 0, 0, 0, 0, 0, 0, 0] }

/-- A concrete two-entry history. -/
def histEx : HistoryState :=
  pushAll (historyNew 10) [(imgEx, "Initial Image Load"), (imgEx, "Mosaic Applied")]

/-- A concrete pointer-event sequence with no pointer-down. -/
def opsEx : List SelOp :=
  [SelOp.mouseMove { x := 2, y := 2 }, SelOp.mouseUp 0, SelOp.rightClick, SelOp.clear]

/-- An 8-point freehand move list (9 recorded points with the start). -/
def ps8 : List Pt :=
  [{ x := 1, y := 1 }, { x := 2, y := 2 }, { x := 3, y := 3 }, { x := 4, y := 4 },
   { x := 5, y := 5 }, { x := 6, y := 6 }, { x := 7, y := 7 }, { x := 8, y := 8 }]

end MosaicApp
namespace MosaicApp

lemma getD_set_self (l : List Nat) (i v : Nat) (h : i < l.length) :
    (l.set i v).getD i 0 = v := by
  simp [List.getD_eq_getElem?_getD, List.getElem?_set_self', h]

lemma getD_set_ne (l : List Nat) (v : Nat) {i j : Nat} (h : i ≠ j) :
    (l.set i v).getD j 0 = l.getD j 0 := by
  simp [List.getD_eq_getElem?_getD, List.getElem?_set_ne h]

lemma pixIndex_lt {width height x y c : Nat} (hx : x < width) (hy : y < height)
    (hc : c < 4) : pixIndex width x y + c < width * height * 4 := by
  have h1 : y * width + x + 1 ≤ height * width := by
    calc y * width + x + 1 ≤ y * width + width := by omega
    _ = (y + 1) * width := by ring
    _ ≤ height * width := Nat.mul_le_mul_right _ (by omega)
  calc pixIndex width x y + c < (y * width + x + 1) * 4 := by unfold pixIndex; omega
  _ ≤ height * width * 4 := Nat.mul_le_mul_right _ h1
  _ = width * height * 4 := by ring

lemma pixIndex_inj {width x y c x' y' c' : Nat} (hx : x < width) (hx' : x' < width)
    (hc : c < 4) (hc' : c' < 4)
    (h : pixIndex width x y + c = pixIndex width x' y' + c') :
    x = x' ∧ y = y' ∧ c = c' := by
  unfold pixIndex at h
  have hw : 0 < width := by omega
  have hp : y * width + x = y' * width + x' := by omega
  have hcc : c = c' := by omega
  have e1 : x = x' := by
    have hmod := congrArg (· % width) hp
    simp only at hmod
    rw [Nat.mul_comm y width, Nat.mul_comm y' width, Nat.mul_add_mod, Nat.mul_add_mod,
      Nat.mod_eq_of_lt hx, Nat.mod_eq_of_lt hx'] at hmod
    exact hmod
  refine ⟨e1, ?_, hcc⟩
  subst e1
  have : y * width = y' * width := by omega
  exact Nat.eq_of_mul_eq_mul_right hw this

lemma length_writePixel (w : Nat) (col : Nat × Nat × Nat) (d : List Nat) (p : Nat × Nat) :
    (writePixel w col d p).length = d.length := by
  simp [writePixel]

lemma getD_writePixel_ne (w : Nat) (col : Nat × Nat × Nat) (d : List Nat) (p : Nat × Nat)
    {j : Nat} (h0 : j ≠ pixIndex w p.1 p.2) (h1 : j ≠ pixIndex w p.1 p.2 + 1)
    (h2 : j ≠ pixIndex w p.1 p.2 + 2) :
    (writePixel w col d p).getD j 0 = d.getD j 0 := by
  unfold writePixel
  rw [getD_set_ne _ _ (Ne.symm h2), getD_set_ne _ _ (Ne.symm h1),
    getD_set_ne _ _ (Ne.symm h0)]

lemma getD_writePixel_self (w : Nat) (col : Nat × Nat × Nat) (d : List Nat)
    (px py : Nat) {c : Nat} (hc : c < 3)
    (hlen : pixIndex w px py + c < d.length) :
    (writePixel w col d (px, py)).getD (pixIndex w px py + c) 0 =
      clamp255 (channelOf col c) := by
  have hcases : c = 0 ∨ c = 1 ∨ c = 2 := by omega
  unfold writePixel channelOf
  dsimp only
  rcases hcases with rfl | rfl | rfl
  · simp only [Nat.add_zero]
    rw [getD_set_ne _ _ (by omega), getD_set_ne _ _ (by omega),
      getD_set_self _ _ _ (by simpa using (by omega : pixIndex w px py < d.length))]
    simp
  · rw [getD_set_ne _ _ (by omega), getD_set_self _ _ _ (by simpa using hlen)]
    simp
  · rw [getD_set_self _ _ _ (by simpa using hlen)]
    simp

end MosaicApp
namespace MosaicApp

lemma mem_blockPixels {startX startY blockSize width height x y : Nat} :
    (x, y) ∈ blockPixels startX startY blockSize width height ↔
      (startX ≤ x ∧ x < min (startX + blockSize) width) ∧
      (startY ≤ y ∧ y < min (startY + blockSize) height) := by
  simp only [blockPixels, List.mem_flatMap, List.mem_map, List.mem_range'_1, Prod.mk.injEq]
  constructor
  · rintro ⟨y', ⟨hy1, hy2⟩, x', ⟨hx1, hx2⟩, hxx, hyy⟩
    subst hxx; subst hyy; omega
  · rintro ⟨⟨hx1, hx2⟩, hy1, hy2⟩
    exact ⟨y, ⟨hy1, by omega⟩, x, ⟨hx1, by omega⟩, rfl, rfl⟩

lemma fst_lt_of_mem_blockPixels {startX startY blockSize width height : Nat}
    {p : Nat × Nat} (h : p ∈ blockPixels startX startY blockSize width height) :
    p.1 < width := by
  obtain ⟨x, y⟩ := p
  have := mem_blockPixels.mp h
  omega

lemma length_foldl_writePixel (w : Nat) (col : Nat × Nat × Nat)
    (l : List (Nat × Nat)) (d : List Nat) :
    (l.foldl (writePixel w col) d).length = d.length := by
  induction l generalizing d with
  | nil => rfl
  | cons p l ih => rw [List.foldl_cons, ih, length_writePixel]

lemma getD_foldl_writePixel (w : Nat) (col : Nat × Nat × Nat) (l : List (Nat × Nat))
    (d : List Nat) (x y c : Nat) (hx : x < w) (hc : c < 4)
    (hlen : pixIndex w x y + c < d.length) (hl : ∀ p ∈ l, p.1 < w) :
    (l.foldl (writePixel w col) d).getD (pixIndex w x y + c) 0 =
      if (x, y) ∈ l ∧ c < 3 then clamp255 (channelOf col c)
      else d.getD (pixIndex w x y + c) 0 := by
  induction l generalizing d with
  | nil => simp
  | cons p l ih =>
    rw [List.foldl_cons,
      ih _ (by rw [length_writePixel]; exact hlen) fun q hq => hl q (List.mem_cons_of_mem _ hq)]
    by_cases hmem : (x, y) ∈ l ∧ c < 3
    · rw [if_pos hmem, if_pos ⟨List.mem_cons_of_mem _ hmem.1, hmem.2⟩]
    · rw [if_neg hmem]
      by_cases hp : (x, y) = p ∧ c < 3
      · obtain ⟨hpe, hc3⟩ := hp
        subst hpe
        rw [if_pos ⟨List.mem_cons_self _ _, hc3⟩]
        exact getD_writePixel_self w col d x y hc3 hlen
      · rw [if_neg fun hcon => by
          rcases List.mem_cons.mp hcon.1 with h | h
          · exact hp ⟨h, hcon.2⟩
          · exact hmem ⟨h, hcon.2⟩]
        apply getD_writePixel_ne
        · intro he
          obtain ⟨e1, e2, e3⟩ := pixIndex_inj hx (hl p (List.mem_cons_self _ _)) hc
            (show (0:Nat) < 4 by omega)
            (show pixIndex w x y + c = pixIndex w p.1 p.2 + 0 by omega)
          exact hp ⟨Prod.ext_iff.mpr ⟨e1, e2⟩, by omega⟩
        · intro he
          obtain ⟨e1, e2, e3⟩ := pixIndex_inj hx (hl p (List.mem_cons_self _ _)) hc
            (show (1:Nat) < 4 by omega) he
          exact hp ⟨Prod.ext_iff.mpr ⟨e1, e2⟩, by omega⟩
        · intro he
          obtain ⟨e1, e2, e3⟩ := pixIndex_inj hx (hl p (List.mem_cons_self _ _)) hc
            (show (2:Nat) < 4 by omega) he
          exact hp ⟨Prod.ext_iff.mpr ⟨e1, e2⟩, by omega⟩

end MosaicApp
namespace MosaicApp

lemma writePixelMasked_eq (mask : List Nat) (w : Nat) (col : Nat × Nat × Nat)
    (d : List Nat) (p : Nat × Nat) :
    writePixelMasked mask w col d p =
      if 127 < mask.getD (pixIndex w p.1 p.2) 0 then writePixel w col d p else d := rfl

lemma length_writePixelMasked (mask : List Nat) (w : Nat) (col : Nat × Nat × Nat)
    (d : List Nat) (p : Nat × Nat) :
    (writePixelMasked mask w col d p).length = d.length := by
  rw [writePixelMasked_eq]
  split
  · exact length_writePixel w col d p
  · rfl

lemma length_foldl_writePixelMasked (mask : List Nat) (w : Nat) (col : Nat × Nat × Nat)
    (l : List (Nat × Nat)) (d : List Nat) :
    (l.foldl (writePixelMasked mask w col) d).length = d.length := by
  induction l generalizing d with
  | nil => rfl
  | cons p l ih => rw [List.foldl_cons, ih, length_writePixelMasked]

lemma getD_writePixelMasked_ne (mask : List Nat) (w : Nat) (col : Nat × Nat × Nat)
    (d : List Nat) (p : Nat × Nat) {j : Nat} (h0 : j ≠ pixIndex w p.1 p.2)
    (h1 : j ≠ pixIndex w p.1 p.2 + 1) (h2 : j ≠ pixIndex w p.1 p.2 + 2) :
    (writePixelMasked mask w col d p).getD j 0 = d.getD j 0 := by
  rw [writePixelMasked_eq]
  split
  · exact getD_writePixel_ne w col d p h0 h1 h2
  · rfl

lemma getD_writePixelMasked_self (mask : List Nat) (w : Nat) (col : Nat × Nat × Nat)
    (d : List Nat) (px py : Nat) {c : Nat} (hc : c < 3)
    (hlen : pixIndex w px py + c < d.length) :
    (writePixelMasked mask w col d (px, py)).getD (pixIndex w px py + c) 0 =
      if 127 < mask.getD (pixIndex w px py) 0 then clamp255 (channelOf col c)
      else d.getD (pixIndex w px py + c) 0 := by
  rw [writePixelMasked_eq]
  split
  · exact getD_writePixel_self w col d px py hc hlen
  · rfl

lemma getD_foldl_writePixelMasked (mask : List Nat) (w : Nat) (col : Nat × Nat × Nat)
    (l : List (Nat × Nat)) (d : List Nat) (x y c : Nat) (hx : x < w) (hc : c < 4)
    (hlen : pixIndex w x y + c < d.length) (hl : ∀ p ∈ l, p.1 < w) :
    (l.foldl (writePixelMasked mask w col) d).getD (pixIndex w x y + c) 0 =
      if (x, y) ∈ l ∧ c < 3 ∧ 127 < mask.getD (pixIndex w x y) 0 then
        clamp255 (channelOf col c)
      else d.getD (pixIndex w x y + c) 0 := by
  induction l generalizing d with
  | nil => simp
  | cons p l ih =>
    rw [List.foldl_cons,
      ih _ (by rw [length_writePixelMasked]; exact hlen)
        fun q hq => hl q (List.mem_cons_of_mem _ hq)]
    by_cases hmem : (x, y) ∈ l ∧ c < 3 ∧ 127 < mask.getD (pixIndex w x y) 0
    · rw [if_pos hmem, if_pos ⟨List.mem_cons_of_mem _ hmem.1, hmem.2⟩]
    · rw [if_neg hmem]
      by_cases hp : (x, y) = p ∧ c < 3
      · obtain ⟨hpe, hc3⟩ := hp
        subst hpe
        rw [getD_writePixelMasked_self mask w col d x y hc3 hlen]
        by_cases hm : 127 < mask.getD (pixIndex w x y) 0
        · rw [if_pos hm, if_pos ⟨List.mem_cons_self _ _, hc3, hm⟩]
        · rw [if_neg hm, if_neg fun hcon => hm hcon.2.2]
      · rw [if_neg fun hcon => by
          rcases List.mem_cons.mp hcon.1 with h | h
          · exact hp ⟨h, hcon.2.1⟩
          · exact hmem ⟨h, hcon.2⟩]
        apply getD_writePixelMasked_ne
        · intro he
          obtain ⟨e1, e2, e3⟩ := pixIndex_inj hx (hl p (List.mem_cons_self _ _)) hc
            (show (0:Nat) < 4 by omega)
            (show pixIndex w x y + c = pixIndex w p.1 p.2 + 0 by omega)
          exact hp ⟨Prod.ext_iff.mpr ⟨e1, e2⟩, by omega⟩
        · intro he
          obtain ⟨e1, e2, e3⟩ := pixIndex_inj hx (hl p (List.mem_cons_self _ _)) hc
            (show (1:Nat) < 4 by omega) he
          exact hp ⟨Prod.ext_iff.mpr ⟨e1, e2⟩, by omega⟩
        · intro he
          obtain ⟨e1, e2, e3⟩ := pixIndex_inj hx (hl p (List.mem_cons_self _ _)) hc
            (show (2:Nat) < 4 by omega) he
          exact hp ⟨Prod.ext_iff.mpr ⟨e1, e2⟩, by omega⟩

lemma calculateAverageColor_congr {d1 d2 : List Nat} {sx sy b w h : Nat}
    (hagree : ∀ p ∈ blockPixels sx sy b w h, ∀ c < 3,
      d1.getD (pixIndex w p.1 p.2 + c) 0 = d2.getD (pixIndex w p.1 p.2 + c) 0) :
    calculateAverageColor d1 sx sy b w h = calculateAverageColor d2 sx sy b w h := by
  have h0 : (blockPixels sx sy b w h).map (fun p => d1.getD (pixIndex w p.1 p.2) 0) =
      (blockPixels sx sy b w h).map (fun p => d2.getD (pixIndex w p.1 p.2) 0) :=
    List.map_congr_left fun p hp => by
      simpa using hagree p hp 0 (by omega)
  have h1 : (blockPixels sx sy b w h).map (fun p => d1.getD (pixIndex w p.1 p.2 + 1) 0) =
      (blockPixels sx sy b w h).map (fun p => d2.getD (pixIndex w p.1 p.2 + 1) 0) :=
    List.map_congr_left fun p hp => hagree p hp 1 (by omega)
  have h2 : (blockPixels sx sy b w h).map (fun p => d1.getD (pixIndex w p.1 p.2 + 2) 0) =
      (blockPixels sx sy b w h).map (fun p => d2.getD (pixIndex w p.1 p.2 + 2) 0) :=
    List.map_congr_left fun p hp => hagree p hp 2 (by omega)
  simp only [calculateAverageColor]
  rw [h0, h1, h2]

end MosaicApp
namespace MosaicApp

lemma mem_blockStarts {len step m : Nat} (hstep : 0 < step) :
    m ∈ blockStarts len step ↔ (∃ k, m = k * step) ∧ m < len := by
  simp only [blockStarts, List.mem_map, List.mem_range]
  constructor
  · rintro ⟨k, hk, rfl⟩
    refine ⟨⟨k, rfl⟩, ?_⟩
    have h1 : k + 1 ≤ (len + step - 1) / step := hk
    rw [Nat.le_div_iff_mul_le hstep, add_one_mul] at h1
    omega
  · rintro ⟨⟨k, rfl⟩, hlt⟩
    refine ⟨k, ?_, rfl⟩
    have h1 : (k + 1) * step ≤ len + step - 1 := by
      rw [add_one_mul]; omega
    have h2 : k + 1 ≤ (len + step - 1) / step := by
      rw [Nat.le_div_iff_mul_le hstep]; exact h1
    omega

lemma mem_tileOrigins {w h b : Nat} {t : Nat × Nat} (hb : 0 < b) :
    t ∈ tileOrigins w h b ↔
      ((∃ k, t.1 = k * b) ∧ t.1 < w) ∧ ((∃ k, t.2 = k * b) ∧ t.2 < h) := by
  obtain ⟨tx, ty⟩ := t
  simp only [tileOrigins, List.mem_flatMap, List.mem_map, Prod.mk.injEq]
  constructor
  · rintro ⟨y', hy', x', hx', rfl, rfl⟩
    exact ⟨(mem_blockStarts hb).mp hx', (mem_blockStarts hb).mp hy'⟩
  · rintro ⟨hx, hy⟩
    exact ⟨ty, (mem_blockStarts hb).mpr hy, tx, (mem_blockStarts hb).mpr hx, rfl, rfl⟩

lemma nodup_blockStarts (len step : Nat) (hstep : 0 < step) :
    (blockStarts len step).Nodup :=
  (List.nodup_range _).map fun _ _ e => Nat.eq_of_mul_eq_mul_right hstep e

lemma nodup_tileOrigins (w h b : Nat) (hb : 0 < b) : (tileOrigins w h b).Nodup := by
  rw [tileOrigins, List.nodup_flatMap]
  refine ⟨fun y _ => ?_, ?_⟩
  · exact (nodup_blockStarts w b hb).map fun a a' e => ((Prod.mk.injEq _ _ _ _).mp e).1
  · refine (List.pairwise_iff_forall_sublist).mpr ?_
    intro y1 y2 hsub
    have hne : y1 ≠ y2 := by
      have hnd : [y1, y2].Nodup := List.Sublist.nodup hsub (nodup_blockStarts h b hb)
      simp only [List.nodup_cons, List.mem_singleton, List.nodup_nil, and_true] at hnd
      exact hnd.1
    simp only [Function.onFun, List.disjoint_left, List.mem_map]
    rintro p ⟨x1, _, rfl⟩ ⟨x2, _, he⟩
    exact hne (((Prod.mk.injEq _ _ _ _).mp he).2).symm

end MosaicApp
namespace MosaicApp

lemma self_mem_blockPixels {b w h x y : Nat} (hb : 0 < b) (hx : x < w) (hy : y < h) :
    (x, y) ∈ blockPixels (x / b * b) (y / b * b) b w h := by
  have hx1 : x / b * b = b * (x / b) := Nat.mul_comm _ _
  have hy1 : y / b * b = b * (y / b) := Nat.mul_comm _ _
  have hx2 := Nat.div_add_mod x b
  have hy2 := Nat.div_add_mod y b
  have hx3 := Nat.mod_lt x hb
  have hy3 := Nat.mod_lt y hb
  exact mem_blockPixels.mpr ⟨⟨by omega, by omega⟩, by omega, by omega⟩

lemma tileOrigin_self_mem {b w h x y : Nat} (hb : 0 < b) (hx : x < w) (hy : y < h) :
    (x / b * b, y / b * b) ∈ tileOrigins w h b := by
  refine (mem_tileOrigins hb).mpr ⟨⟨⟨x / b, rfl⟩, ?_⟩, ⟨y / b, rfl⟩, ?_⟩
  · exact lt_of_le_of_lt (Nat.div_mul_le_self x b) hx
  · exact lt_of_le_of_lt (Nat.div_mul_le_self y b) hy

lemma tile_eq_of_mem_blockPixels {b w h : Nat} (hb : 0 < b) {t : Nat × Nat}
    (ho : ((∃ k, t.1 = k * b) ∧ t.1 < w) ∧ ((∃ k, t.2 = k * b) ∧ t.2 < h))
    {x y : Nat} (hmem : (x, y) ∈ blockPixels t.1 t.2 b w h) :
    t = (x / b * b, y / b * b) := by
  obtain ⟨⟨⟨k, hk⟩, hkw⟩, ⟨m, hm⟩, hmh⟩ := ho
  have h1 := mem_blockPixels.mp hmem
  have hx1 : x / b = k := by
    refine Nat.div_eq_of_lt_le (by omega) ?_
    have : (k + 1) * b = k * b + b := by ring
    omega
  have hy1 : y / b = m := by
    refine Nat.div_eq_of_lt_le (by omega) ?_
    have : (m + 1) * b = m * b + b := by ring
    omega
  exact Prod.ext_iff.mpr ⟨by rw [hx1, ← hk], by rw [hy1, ← hm]⟩

lemma processMosaic_fold (w h b : Nat) (hb : 0 < b) (orig : List Nat) :
    ∀ (ts : List (Nat × Nat)) (d : List Nat),
      d.length = w * h * 4 →
      ts.Nodup →
      (∀ t ∈ ts, ((∃ k, t.1 = k * b) ∧ t.1 < w) ∧ ((∃ k, t.2 = k * b) ∧ t.2 < h)) →
      (∀ t ∈ ts, ∀ p ∈ blockPixels t.1 t.2 b w h, ∀ c < 3,
        d.getD (pixIndex w p.1 p.2 + c) 0 = orig.getD (pixIndex w p.1 p.2 + c) 0) →
      ∀ x y c, x < w → y < h → c < 4 →
        (ts.foldl (fun d t => fillBlock d t.1 t.2 b w h
            (calculateAverageColor d t.1 t.2 b w h)) d).getD (pixIndex w x y + c) 0 =
          if (x / b * b, y / b * b) ∈ ts ∧ c < 3 then
            clamp255 (channelOf
              (calculateAverageColor orig (x / b * b) (y / b * b) b w h) c)
          else d.getD (pixIndex w x y + c) 0 := by
  intro ts
  induction ts with
  | nil => intro d _ _ _ _ x y c _ _ _; simp
  | cons t ts ih =>
    intro d hdlen hnodup horig hagree x y c hx hy hc
    have hcol : calculateAverageColor d t.1 t.2 b w h =
        calculateAverageColor orig t.1 t.2 b w h :=
      calculateAverageColor_congr fun p hp c' hc' =>
        hagree t (List.mem_cons_self _ _) p hp c' hc'
    have hd'len : (fillBlock d t.1 t.2 b w h
        (calculateAverageColor d t.1 t.2 b w h)).length = w * h * 4 := by
      rw [fillBlock, length_foldl_writePixel, hdlen]
    have hagree' : ∀ t' ∈ ts, ∀ p ∈ blockPixels t'.1 t'.2 b w h, ∀ c' < 3,
        (fillBlock d t.1 t.2 b w h
          (calculateAverageColor d t.1 t.2 b w h)).getD (pixIndex w p.1 p.2 + c') 0 =
          orig.getD (pixIndex w p.1 p.2 + c') 0 := by
      intro t' ht' p hp c' hc'
      have hpw : p.1 < w := fst_lt_of_mem_blockPixels hp
      have hph : p.2 < h := by
        have := mem_blockPixels.mp (show (p.1, p.2) ∈ _ from hp)
        omega
      rw [fillBlock, getD_foldl_writePixel w _ _ d p.1 p.2 c' hpw (by omega)
        (by rw [hdlen]; exact pixIndex_lt hpw hph (by omega))
        (fun q hq => fst_lt_of_mem_blockPixels hq)]
      rw [if_neg, hagree t' (List.mem_cons_of_mem _ ht') p hp c' hc']
      rintro ⟨hmem, -⟩
      have e1 := tile_eq_of_mem_blockPixels hb (horig t (List.mem_cons_self _ _)) hmem
      have e2 := tile_eq_of_mem_blockPixels hb
        (horig t' (List.mem_cons_of_mem _ ht'))
        (show (p.1, p.2) ∈ _ from hp)
      rw [← e2] at e1
      rw [e1] at hnodup
      exact (List.nodup_cons.mp hnodup).1 ht'
    rw [List.foldl_cons,
      ih _ hd'len (List.nodup_cons.mp hnodup).2
        (fun t' ht' => horig t' (List.mem_cons_of_mem _ ht')) hagree' x y c hx hy hc]
    by_cases hmem : (x / b * b, y / b * b) ∈ ts ∧ c < 3
    · rw [if_pos hmem, if_pos ⟨List.mem_cons_of_mem _ hmem.1, hmem.2⟩]
    · rw [if_neg hmem]
      by_cases hhead : (x / b * b, y / b * b) = t ∧ c < 3
      · obtain ⟨hte, hc3⟩ := hhead
        subst hte
        rw [if_pos ⟨List.mem_cons_self _ _, hc3⟩]
        rw [fillBlock, getD_foldl_writePixel w _ _ d x y c hx hc
          (by rw [hdlen]; exact pixIndex_lt hx hy hc)
          (fun q hq => fst_lt_of_mem_blockPixels hq)]
        rw [if_pos ⟨self_mem_blockPixels hb hx hy, hc3⟩, hcol]
      · rw [if_neg fun hcon => by
          rcases List.mem_cons.mp hcon.1 with hin | hin
          · exact hhead ⟨hin, hcon.2⟩
          · exact hmem ⟨hin, hcon.2⟩]
        rw [fillBlock, getD_foldl_writePixel w _ _ d x y c hx hc
          (by rw [hdlen]; exact pixIndex_lt hx hy hc)
          (fun q hq => fst_lt_of_mem_blockPixels hq)]
        rw [if_neg]
        rintro ⟨hmemb, hc3⟩
        have e1 := tile_eq_of_mem_blockPixels hb (horig t (List.mem_cons_self _ _)) hmemb
        exact hhead ⟨e1.symm, hc3⟩

end MosaicApp
namespace MosaicApp

lemma getD_le_of_all {data : List Nat} (hby : ∀ v ∈ data, v ≤ 255) (i : Nat) :
    data.getD i 0 ≤ 255 := by
  rcases Nat.lt_or_ge i data.length with hlt | hge
  · rw [List.getD_eq_getElem _ _ hlt]
    exact hby _ (List.getElem_mem hlt)
  · rw [List.getD_eq_default _ _ hge]
    exact Nat.zero_le 255

lemma jsRound_le_255 {num den : Nat} (hnum : num ≤ 255 * den) :
    jsRound num den ≤ 255 := by
  unfold jsRound
  rcases Nat.eq_zero_or_pos den with rfl | hden
  · simp
  · have hlt : 2 * num + den < 256 * (2 * den) := by
      have e1 : 256 * (2 * den) = 2 * (255 * den) + 2 * den := by ring
      omega
    have := (Nat.div_lt_iff_lt_mul (by omega : 0 < 2 * den)).mpr hlt
    omega

lemma channelOf_calc_le {data : List Nat} (hby : ∀ v ∈ data, v ≤ 255)
    (sx sy b w h c : Nat) :
    channelOf (calculateAverageColor data sx sy b w h) c ≤ 255 := by
  have hsum : ∀ off : Nat,
      ((blockPixels sx sy b w h).map
        (fun p => data.getD (pixIndex w p.1 p.2 + off) 0)).sum ≤
        255 * (blockPixels sx sy b w h).length := by
    intro off
    have h1 := List.sum_le_card_nsmul
      ((blockPixels sx sy b w h).map fun p => data.getD (pixIndex w p.1 p.2 + off) 0)
      255 (by
        intro v hv
        simp only [List.mem_map] at hv
        obtain ⟨p, -, rfl⟩ := hv
        exact getD_le_of_all hby _)
    simpa [smul_eq_mul, Nat.mul_comm] using h1
  have h0 : ((blockPixels sx sy b w h).map
      (fun p => data.getD (pixIndex w p.1 p.2) 0)).sum ≤
      255 * (blockPixels sx sy b w h).length := by
    have := hsum 0
    simpa using this
  unfold calculateAverageColor channelOf
  dsimp only
  split
  · exact jsRound_le_255 h0
  · split
    · exact jsRound_le_255 (hsum 1)
    · exact jsRound_le_255 (hsum 2)

lemma clamp255_eq_of_le {v : Nat} (h : v ≤ 255) : clamp255 v = v := Nat.min_eq_left h

lemma length_mosaicFold (w h b : Nat) :
    ∀ (ts : List (Nat × Nat)) (d : List Nat),
      (ts.foldl (fun d t => fillBlock d t.1 t.2 b w h
        (calculateAverageColor d t.1 t.2 b w h)) d).length = d.length := by
  intro ts
  induction ts with
  | nil => intro d; rfl
  | cons t ts ih =>
    intro d
    rw [List.foldl_cons, ih, fillBlock, length_foldl_writePixel]

/-- C1: the unmasked mosaic keeps the raster's dimensions and alpha bytes,
and writes into every pixel the per-channel `Math.round`ed mean of its
clipped `blockSize × blockSize` tile (the tile of `(x, y)` starts at
`(x / b * b, y / b * b)`; tiles are clipped to the image bounds by
`blockPixels`, never wrapped or padded). -/
theorem processMosaic_spec (img : ImageData) (b : Nat) (hb : 1 ≤ b)
    (hlen : img.data.length = img.width * img.height * 4)
    (hbyte : ∀ v ∈ img.data, v ≤ 255) :
    (processMosaic img b).width = img.width ∧
    (processMosaic img b).height = img.height ∧
    (processMosaic img b).data.length = img.data.length ∧
    (∀ x y c, x < img.width → y < img.height → c < 3 →
      (processMosaic img b).data.getD (pixIndex img.width x y + c) 0 =
        channelOf (calculateAverageColor img.data (x / b * b) (y / b * b) b
          img.width img.height) c) ∧
    (∀ x y, x < img.width → y < img.height →
      (processMosaic img b).data.getD (pixIndex img.width x y + 3) 0 =
        img.data.getD (pixIndex img.width x y + 3) 0) := by
  have hfold := processMosaic_fold img.width img.height b (by omega) img.data
    (tileOrigins img.width img.height b) img.data hlen
    (nodup_tileOrigins _ _ _ (by omega))
    (fun t ht => (mem_tileOrigins (by omega)).mp ht)
    (fun t _ p _ c _ => rfl)
  refine ⟨rfl, rfl, ?_, ?_, ?_⟩
  · exact length_mosaicFold img.width img.height b _ img.data
  · intro x y c hx hy hc
    have h1 := hfold x y c hx hy (by omega)
    simp only [processMosaic]
    rw [h1, if_pos ⟨tileOrigin_self_mem (by omega) hx hy, hc⟩,
      clamp255_eq_of_le (channelOf_calc_le hbyte _ _ _ _ _ _)]
  · intro x y hx hy
    have h1 := hfold x y 3 hx hy (by omega)
    simp only [processMosaic]
    rw [h1, if_neg]
    rintro ⟨-, hcon⟩
    omega

end MosaicApp
namespace MosaicApp

lemma length_mosaicMaskFold (w h b : Nat) (mask : List Nat) :
    ∀ (ts : List (Nat × Nat)) (d : List Nat),
      (ts.foldl (fun d t =>
        if hasSelectedPixels mask t.1 t.2 b w h then
          fillBlockWithMask d mask t.1 t.2 b w h
            (calculateAverageColor d t.1 t.2 b w h)
        else d) d).length = d.length := by
  intro ts
  induction ts with
  | nil => intro d; rfl
  | cons t ts ih =>
    intro d
    simp only [List.foldl_cons]
    rw [ih]
    split
    · rw [fillBlockWithMask, length_foldl_writePixelMasked]
    · rfl

lemma processMosaicWithMask_fold (w h b : Nat) (hb : 0 < b) (mask orig : List Nat) :
    ∀ (ts : List (Nat × Nat)) (d : List Nat),
      d.length = w * h * 4 →
      ts.Nodup →
      (∀ t ∈ ts, ((∃ k, t.1 = k * b) ∧ t.1 < w) ∧ ((∃ k, t.2 = k * b) ∧ t.2 < h)) →
      (∀ t ∈ ts, ∀ p ∈ blockPixels t.1 t.2 b w h, ∀ c < 3,
        d.getD (pixIndex w p.1 p.2 + c) 0 = orig.getD (pixIndex w p.1 p.2 + c) 0) →
      ∀ x y c, x < w → y < h → c < 4 →
        (ts.foldl (fun d t =>
          if hasSelectedPixels mask t.1 t.2 b w h then
            fillBlockWithMask d mask t.1 t.2 b w h
              (calculateAverageColor d t.1 t.2 b w h)
          else d) d).getD (pixIndex w x y + c) 0 =
          if (x / b * b, y / b * b) ∈ ts ∧ c < 3 ∧
              hasSelectedPixels mask (x / b * b) (y / b * b) b w h = true ∧
              127 < mask.getD (pixIndex w x y) 0 then
            clamp255 (channelOf
              (calculateAverageColor orig (x / b * b) (y / b * b) b w h) c)
          else d.getD (pixIndex w x y + c) 0 := by
  intro ts
  induction ts with
  | nil => intro d _ _ _ _ x y c _ _ _; simp
  | cons t ts ih =>
    intro d hdlen hnodup horig hagree x y c hx hy hc
    simp only [List.foldl_cons]
    by_cases hsel : hasSelectedPixels mask t.1 t.2 b w h = true
    · rw [if_pos hsel]
      have hcol : calculateAverageColor d t.1 t.2 b w h =
          calculateAverageColor orig t.1 t.2 b w h :=
        calculateAverageColor_congr fun p hp c' hc' =>
          hagree t (List.mem_cons_self _ _) p hp c' hc'
      have hd'len : (fillBlockWithMask d mask t.1 t.2 b w h
          (calculateAverageColor d t.1 t.2 b w h)).length = w * h * 4 := by
        rw [fillBlockWithMask, length_foldl_writePixelMasked, hdlen]
      have hagree' : ∀ t' ∈ ts, ∀ p ∈ blockPixels t'.1 t'.2 b w h, ∀ c' < 3,
          (fillBlockWithMask d mask t.1 t.2 b w h
            (calculateAverageColor d t.1 t.2 b w h)).getD
              (pixIndex w p.1 p.2 + c') 0 =
            orig.getD (pixIndex w p.1 p.2 + c') 0 := by
        intro t' ht' p hp c' hc'
        have hpw : p.1 < w := fst_lt_of_mem_blockPixels hp
        have hph : p.2 < h := by
          have := mem_blockPixels.mp (show (p.1, p.2) ∈ _ from hp)
          omega
        rw [fillBlockWithMask, getD_foldl_writePixelMasked mask w _ _ d p.1 p.2 c' hpw
          (by omega) (by rw [hdlen]; exact pixIndex_lt hpw hph (by omega))
          (fun q hq => fst_lt_of_mem_blockPixels hq)]
        rw [if_neg, hagree t' (List.mem_cons_of_mem _ ht') p hp c' hc']
        rintro ⟨hmem, -, -⟩
        have e1 := tile_eq_of_mem_blockPixels hb (horig t (List.mem_cons_self _ _)) hmem
        have e2 := tile_eq_of_mem_blockPixels hb
          (horig t' (List.mem_cons_of_mem _ ht'))
          (show (p.1, p.2) ∈ _ from hp)
        rw [← e2] at e1
        rw [e1] at hnodup
        exact (List.nodup_cons.mp hnodup).1 ht'
      rw [ih _ hd'len (List.nodup_cons.mp hnodup).2
        (fun t' ht' => horig t' (List.mem_cons_of_mem _ ht')) hagree' x y c hx hy hc]
      by_cases hmem : (x / b * b, y / b * b) ∈ ts ∧ c < 3 ∧
          hasSelectedPixels mask (x / b * b) (y / b * b) b w h = true ∧
          127 < mask.getD (pixIndex w x y) 0
      · rw [if_pos hmem, if_pos ⟨List.mem_cons_of_mem _ hmem.1, hmem.2⟩]
      · rw [if_neg hmem]
        by_cases hhead : (x / b * b, y / b * b) = t ∧ c < 3
        · obtain ⟨hte, hc3⟩ := hhead
          subst hte
          rw [fillBlockWithMask, getD_foldl_writePixelMasked mask w _ _ d x y c hx hc
            (by rw [hdlen]; exact pixIndex_lt hx hy hc)
            (fun q hq => fst_lt_of_mem_blockPixels hq)]
          by_cases hpix : 127 < mask.getD (pixIndex w x y) 0
          · rw [if_pos ⟨self_mem_blockPixels hb hx hy, hc3, hpix⟩,
              if_pos ⟨List.mem_cons_self _ _, hc3, hsel, hpix⟩, hcol]
          · rw [if_neg fun hcon => hpix hcon.2.2,
              if_neg fun hcon => hpix hcon.2.2.2]
        · rw [if_neg fun hcon => by
            rcases List.mem_cons.mp hcon.1 with hin | hin
            · exact hhead ⟨hin, hcon.2.1⟩
            · exact hmem ⟨hin, hcon.2⟩]
          rw [fillBlockWithMask, getD_foldl_writePixelMasked mask w _ _ d x y c hx hc
            (by rw [hdlen]; exact pixIndex_lt hx hy hc)
            (fun q hq => fst_lt_of_mem_blockPixels hq)]
          rw [if_neg]
          rintro ⟨hmemb, hc3, -⟩
          have e1 := tile_eq_of_mem_blockPixels hb
            (horig t (List.mem_cons_self _ _)) hmemb
          exact hhead ⟨e1.symm, hc3⟩
    · rw [if_neg hsel]
      rw [ih _ hdlen (List.nodup_cons.mp hnodup).2
        (fun t' ht' => horig t' (List.mem_cons_of_mem _ ht'))
        (fun t' ht' => hagree t' (List.mem_cons_of_mem _ ht')) x y c hx hy hc]
      by_cases hmem : (x / b * b, y / b * b) ∈ ts ∧ c < 3 ∧
          hasSelectedPixels mask (x / b * b) (y / b * b) b w h = true ∧
          127 < mask.getD (pixIndex w x y) 0
      · rw [if_pos hmem, if_pos ⟨List.mem_cons_of_mem _ hmem.1, hmem.2⟩]
      · rw [if_neg hmem, if_neg]
        rintro ⟨hmemc, hrest⟩
        rcases List.mem_cons.mp hmemc with hin | hin
        · rw [← hin] at hsel
          exact hsel hrest.2.1
        · exact hmem ⟨hin, hrest⟩

end MosaicApp
namespace MosaicApp

/-- C2: the masked mosaic skips tiles with no mask-selected pixel, and in a
tile with at least one selected pixel writes the tile-wide rounded channel
means (averaged over all the tile's pixels) into exactly the selected
pixels, leaving unselected pixels and every alpha byte unchanged. -/
theorem processMosaicWithMask_spec (img : ImageData) (b : Nat) (mask : ImageData)
    (hb : 1 ≤ b) (hlen : img.data.length = img.width * img.height * 4)
    (hbyte : ∀ v ∈ img.data, v ≤ 255)
    (hmw : mask.width = img.width) (hmh : mask.height = img.height) :
    (processMosaicWithMask img b mask).width = img.width ∧
    (processMosaicWithMask img b mask).height = img.height ∧
    (processMosaicWithMask img b mask).data.length = img.data.length ∧
    (∀ x y c, x < img.width → y < img.height → c < 3 →
      (processMosaicWithMask img b mask).data.getD (pixIndex img.width x y + c) 0 =
        if hasSelectedPixels mask.data (x / b * b) (y / b * b) b
              img.width img.height = true ∧
            127 < mask.data.getD (pixIndex img.width x y) 0 then
          channelOf (calculateAverageColor img.data (x / b * b) (y / b * b) b
            img.width img.height) c
        else img.data.getD (pixIndex img.width x y + c) 0) ∧
    (∀ x y, x < img.width → y < img.height →
      (processMosaicWithMask img b mask).data.getD (pixIndex img.width x y + 3) 0 =
        img.data.getD (pixIndex img.width x y + 3) 0) := by
  have hfold := processMosaicWithMask_fold img.width img.height b (by omega)
    mask.data img.data (tileOrigins img.width img.height b) img.data hlen
    (nodup_tileOrigins _ _ _ (by omega))
    (fun t ht => (mem_tileOrigins (by omega)).mp ht)
    (fun t _ p _ c _ => rfl)
  refine ⟨rfl, rfl, ?_, ?_, ?_⟩
  · exact length_mosaicMaskFold img.width img.height b mask.data _ img.data
  · intro x y c hx hy hc
    have h1 := hfold x y c hx hy (by omega)
    simp only [processMosaicWithMask]
    rw [h1]
    by_cases hcond : hasSelectedPixels mask.data (x / b * b) (y / b * b) b
        img.width img.height = true ∧ 127 < mask.data.getD (pixIndex img.width x y) 0
    · rw [if_pos ⟨tileOrigin_self_mem (by omega) hx hy, hc, hcond.1, hcond.2⟩,
        if_pos hcond,
        clamp255_eq_of_le (channelOf_calc_le hbyte _ _ _ _ _ _)]
    · rw [if_neg fun hcon => hcond ⟨hcon.2.2.1, hcon.2.2.2⟩, if_neg hcond]
  · intro x y hx hy
    have h1 := hfold x y 3 hx hy (by omega)
    simp only [processMosaicWithMask]
    rw [h1, if_neg]
    rintro ⟨-, hcon, -⟩
    omega

end MosaicApp
namespace MosaicApp

lemma cloneImageData_eq (img : ImageData) : cloneImageData img = img := rfl

lemma saveState_char (s : HistoryState) (img : ImageData) (a : String)
    (h1 : s.currentIndex ≤ (s.history.length : Int) - 1) :
    saveState s img a =
      if s.maxHistorySize <
          (s.history.take (s.currentIndex + 1).toNat ++ [mkEntry img a]).length then
        { history := (s.history.take (s.currentIndex + 1).toNat ++
            [mkEntry img a]).drop 1,
          currentIndex := ((s.history.take (s.currentIndex + 1).toNat ++
            [mkEntry img a]).length : Int) - 2,
          maxHistorySize := s.maxHistorySize }
      else
        { history := s.history.take (s.currentIndex + 1).toNat ++ [mkEntry img a],
          currentIndex := ((s.history.take (s.currentIndex + 1).toNat ++
            [mkEntry img a]).length : Int) - 1,
          maxHistorySize := s.maxHistorySize } := by
  unfold saveState
  by_cases hcut : s.currentIndex < (s.history.length : Int) - 1
  · rw [if_pos hcut]
    rfl
  · rw [if_neg hcut]
    have he : s.currentIndex = (s.history.length : Int) - 1 := by omega
    have htake : s.history.take (s.currentIndex + 1).toNat = s.history := by
      rw [he]
      have h2 : ((s.history.length : Int) - 1 + 1).toNat = s.history.length := by omega
      rw [h2, List.take_length]
    rw [htake]
    rfl

lemma pushAll_new (M : Nat) (l : List (ImageData × String)) :
    (pushAll (historyNew M) l).history =
      (l.map fun p => mkEntry p.1 p.2).drop (l.length - M) ∧
    (pushAll (historyNew M) l).currentIndex = ((min l.length M : Nat) : Int) - 1 ∧
    (pushAll (historyNew M) l).maxHistorySize = M := by
  induction l using List.reverseRecOn with
  | nil =>
    refine ⟨by simp [pushAll, historyNew], by simp [pushAll, historyNew], rfl⟩
  | append_singleton l p ih =>
    obtain ⟨ih1, ih2, ih3⟩ := ih
    have hstep : pushAll (historyNew M) (l ++ [p]) =
        saveState (pushAll (historyNew M) l) p.1 p.2 := by
      unfold pushAll
      rw [List.foldl_append, List.foldl_cons, List.foldl_nil]
    have hlenA : (pushAll (historyNew M) l).history.length = min l.length M := by
      rw [ih1, List.length_drop, List.length_map]
      omega
    have htake : (pushAll (historyNew M) l).history.take
        ((pushAll (historyNew M) l).currentIndex + 1).toNat =
        (pushAll (historyNew M) l).history := by
      rw [ih2]
      have h2 : (((min l.length M : Nat) : Int) - 1 + 1).toNat = min l.length M := by
        omega
      rw [h2, ← hlenA, List.take_length]
    rw [hstep, saveState_char _ _ _ (by rw [hlenA, ih2]), ih3, htake]
    have hlen2 : ((pushAll (historyNew M) l).history ++ [mkEntry p.1 p.2]).length =
        min l.length M + 1 := by
      rw [List.length_append, hlenA]
      rfl
    by_cases hM : M ≤ l.length
    · rw [if_pos (by rw [hlen2]; omega)]
      refine ⟨?_, ?_, rfl⟩
      · rcases Nat.eq_zero_or_pos M with rfl | hM0
        · have hA0 : (pushAll (historyNew 0) l).history = [] :=
            List.eq_nil_of_length_eq_zero (by rw [hlenA]; omega)
          rw [hA0, List.nil_append]
          have hr : ((l ++ [p]).map fun q => mkEntry q.1 q.2).length =
              (l ++ [p]).length - 0 := by simp
          rw [show (l ++ [p]).length - 0 = ((l ++ [p]).map fun q =>
              mkEntry q.1 q.2).length from hr.symm, List.drop_length]
          rfl
        · rw [List.drop_append_of_le_length (by rw [hlenA]; omega), ih1,
            List.drop_drop, List.map_append]
          have hidx : l.length - M + 1 = (l ++ [p]).length - M := by
            simp only [List.length_append, List.length_singleton]
            omega
          rw [hidx, List.drop_append_of_le_length (by
            simp only [List.length_append, List.length_singleton, List.length_map]
            omega)]
          simp
      · rw [hlen2]
        have hmin : min (l ++ [p]).length M = M := by
          simp only [List.length_append, List.length_singleton]
          omega
        rw [hmin]
        push_cast
        omega
    · rw [if_neg (by rw [hlen2]; omega)]
      refine ⟨?_, ?_, rfl⟩
      · rw [ih1, show l.length - M = 0 from by omega,
          show (l ++ [p]).length - M = 0 from by
            simp only [List.length_append, List.length_singleton]; omega]
        simp
      · rw [hlen2]
        have hmin : min (l ++ [p]).length M = l.length + 1 := by
          simp only [List.length_append, List.length_singleton]
          omega
        rw [hmin]
        push_cast
        omega

end MosaicApp
namespace MosaicApp

/-- C3: `saveState` truncates the redo branch at `currentIndex`, appends a
clone of the raster, points `currentIndex` at it, and evicts index 0 when
over capacity (decrementing `currentIndex`); pushing `M + k` entries
(`k ≥ 1`) into an empty stack of capacity `M` retains exactly the `M` most
recent entries with `currentIndex` on the last slot. -/
theorem saveState_spec :
    (∀ (s : HistoryState) (img : ImageData) (a : String),
      s.currentIndex ≤ (s.history.length : Int) - 1 →
      saveState s img a =
        if s.maxHistorySize <
            (s.history.take (s.currentIndex + 1).toNat ++ [mkEntry img a]).length then
          { history := (s.history.take (s.currentIndex + 1).toNat ++
              [mkEntry img a]).drop 1,
            currentIndex := ((s.history.take (s.currentIndex + 1).toNat ++
              [mkEntry img a]).length : Int) - 2,
            maxHistorySize := s.maxHistorySize }
        else
          { history := s.history.take (s.currentIndex + 1).toNat ++ [mkEntry img a],
            currentIndex := ((s.history.take (s.currentIndex + 1).toNat ++
              [mkEntry img a]).length : Int) - 1,
            maxHistorySize := s.maxHistorySize }) ∧
    (∀ (M k : Nat) (l : List (ImageData × String)),
      l.length = M + k → 1 ≤ k →
      (pushAll (historyNew M) l).history = (l.map fun p => mkEntry p.1 p.2).drop k ∧
      (pushAll (historyNew M) l).history.length = M ∧
      (pushAll (historyNew M) l).currentIndex = (M : Int) - 1) := by
  refine ⟨saveState_char, ?_⟩
  intro M k l hlen hk
  obtain ⟨p1, p2, p3⟩ := pushAll_new M l
  refine ⟨?_, ?_, ?_⟩
  · rw [p1, hlen]
    congr 1
    omega
  · rw [p1, List.length_drop, List.length_map, hlen]
    omega
  · rw [p2, hlen]
    have hmin : min (M + k) M = M := by omega
    rw [hmin]

/-- C4: from any well-formed history position where undo is possible,
`undo()` then `redo()` hands back exactly the raster snapshot stored at
the pre-undo `currentIndex` and restores `currentIndex` and the stack. -/
theorem undo_redo_roundtrip (s : HistoryState) (h1 : 0 < s.currentIndex)
    (h2 : s.currentIndex < (s.history.length : Int)) :
    (redo (undo s).2).1 =
      (s.history[s.currentIndex.toNat]?).map (fun e => e.imageData) ∧
    (redo (undo s).2).2.currentIndex = s.currentIndex ∧
    (redo (undo s).2).2.history = s.history := by
  have heq : s.currentIndex - 1 + 1 = s.currentIndex := by omega
  have hlt : s.currentIndex - 1 < (s.history.length : Int) - 1 := by omega
  simp only [undo, canUndo, decide_eq_true_eq, h1, if_true, redo, canRedo, heq, hlt,
    cloneImageData_eq]
  exact ⟨trivial, trivial, trivial⟩

/-- C10: `clear()` empties the stack and resets `currentIndex` to `-1`;
afterwards `canUndo`, `canRedo` are false, the current label is `none`,
and `undo`/`redo` are no-ops, until something is pushed again. -/
theorem clearHistory_spec (s : HistoryState) :
    (clearHistory s).history = [] ∧
    (clearHistory s).currentIndex = -1 ∧
    canUndo (clearHistory s) = false ∧
    canRedo (clearHistory s) = false ∧
    getCurrentActionName (clearHistory s) = none ∧
    undo (clearHistory s) = (none, clearHistory s) ∧
    redo (clearHistory s) = (none, clearHistory s) := by
  refine ⟨rfl, rfl, by simp [canUndo, clearHistory], by simp [canRedo, clearHistory],
    by simp [getCurrentActionName, clearHistory], ?_, ?_⟩
  · simp [undo, canUndo, clearHistory]
  · simp [redo, canRedo, clearHistory]

end MosaicApp
namespace MosaicApp

lemma isConfirmed_of_hasSelection {s : SelState} (h : hasSelection s = true) :
    s.isConfirmed = true := by
  unfold hasSelection at h
  cases hmode : s.selectionMode <;> rw [hmode] at h <;>
    simp only [Bool.and_eq_true] at h
  · exact h.2
  · exact h.2
  · exact h

lemma isSelectionConfirmed_of_hasSelection {s : SelState} (h : hasSelection s = true) :
    isSelectionConfirmed s = true := by
  unfold isSelectionConfirmed
  cases hmode : s.selectionMode
  · exact isConfirmed_of_hasSelection h
  · exact isConfirmed_of_hasSelection h
  · rfl

lemma selop_preserves_full_confirmed (o : SelOp) (s : SelState)
    (hmode : s.selectionMode = .full) (hconf : s.isConfirmed = true)
    (hnd : ∀ b p, o ≠ SelOp.mouseDown b p) :
    (applySelOp o s).selectionMode = .full ∧ (applySelOp o s).isConfirmed = true := by
  cases o with
  | mouseDown b p => exact absurd rfl (hnd b p)
  | mouseMove p =>
    simp only [applySelOp, handleMouseMove]
    split
    · exact ⟨hmode, hconf⟩
    · exact ⟨hmode, hconf⟩
  | mouseUp b =>
    simp only [applySelOp, handleMouseUp]
    split
    · exact ⟨hmode, hconf⟩
    · rw [if_neg (by rw [hmode]; intro hcon; cases hcon),
        if_neg (by rw [hmode]; intro hcon; cases hcon)]
      exact ⟨hmode, hconf⟩
  | rightClick =>
    simp only [applySelOp, handleRightClick]
    split
    · simp only [clearSelection, Bool.false_eq_true, if_false]
      rw [if_neg (by rw [hmode]; intro hcon; exact hcon rfl)]
      exact ⟨hmode, hconf⟩
    · exact ⟨hmode, hconf⟩
  | clear =>
    simp only [applySelOp, clearSelection, Bool.false_eq_true, if_false]
    rw [if_neg (by rw [hmode]; intro hcon; exact hcon rfl)]
    exact ⟨hmode, hconf⟩

/-- C6 (counterexample): entering Full mode confirms the selection, but a
left pointer-down in Full mode resets the confirmed flag, so a drag gesture
does make `hasSelection()` false. -/
theorem fullmode_mousedown_clears :
    hasSelection (setSelectionMode .full selInit) = true ∧
    hasSelection (handleMouseDown 0 { x := 1, y := 1 }
      (setSelectionMode .full selInit)) = false := by
  exact ⟨rfl, rfl⟩

/-- C6 (amended): in Full mode the confirmed flag (hence `hasSelection`)
survives every pointer-move, pointer-up, right-click and clear, until a
processing pass (`clearSelectionKeepMode`) resets it; a left pointer-down,
however, resets it immediately. -/
theorem fullmode_confirmed_invariant (s : SelState) (ops : List SelOp)
    (hmode : s.selectionMode = .full) (hconf : s.isConfirmed = true)
    (hops : ∀ o ∈ ops, ∀ b p, o ≠ SelOp.mouseDown b p) :
    (applySelOps ops s).selectionMode = .full ∧
    (applySelOps ops s).isConfirmed = true ∧
    hasSelection (applySelOps ops s) = true ∧
    hasSelection (clearSelectionKeepMode (applySelOps ops s)) = false ∧
    (∀ p : Pt, hasSelection (handleMouseDown 0 p (applySelOps ops s)) = false) := by
  have hmain : (applySelOps ops s).selectionMode = .full ∧
      (applySelOps ops s).isConfirmed = true := by
    induction ops generalizing s with
    | nil => exact ⟨hmode, hconf⟩
    | cons o ops ih =>
      have hstep := selop_preserves_full_confirmed o s hmode hconf
        (hops o (List.mem_cons_self _ _))
      exact ih _ hstep.1 hstep.2 fun o' ho' => hops o' (List.mem_cons_of_mem _ ho')
  refine ⟨hmain.1, hmain.2, ?_, ?_, ?_⟩
  · unfold hasSelection
    rw [hmain.1, hmain.2]
  · unfold hasSelection clearSelectionKeepMode
    simp only
    rw [hmain.1]
  · intro p
    unfold hasSelection handleMouseDown
    rw [if_neg (by omega)]
    simp only
    rw [hmain.1]

end MosaicApp
namespace MosaicApp

lemma hasSelection_clearSelection_ne_full (rd : Bool) (s : SelState)
    (h : s.selectionMode ≠ .full) : hasSelection (clearSelection rd s) = false := by
  unfold clearSelection hasSelection
  rcases rd with _ | _
  · simp only [Bool.false_eq_true, if_false]
    rw [if_pos (by simpa using h)]
    simp only
    cases hm : s.selectionMode <;> simp
  · simp

/-- C8 (counterexample): `setSelectionMode('full')` confirms only when the
mode actually changes; calling it while already in Full mode with an
unconfirmed selection (here: after a pointer-down) leaves `hasSelection()`
false. -/
theorem setSelectionMode_full_counterexample :
    (handleMouseDown 0 { x := 1, y := 1 }
      (setSelectionMode .full selInit)).selectionMode = SelMode.full ∧
    hasSelection (setSelectionMode .full (handleMouseDown 0 { x := 1, y := 1 }
      (setSelectionMode .full selInit))) = false := by
  exact ⟨rfl, rfl⟩

/-- C8 (amended): switching into Full mode from any other mode makes
`hasSelection()` true at once; switching to Rectangle makes it false, and
it stays false under pointer-down/move, right-click and clear — a
pointer-up can make it true only when the recorded drag spans at least
5×5 image pixels. -/
theorem setSelectionMode_spec :
    (∀ s : SelState, s.selectionMode ≠ .full →
      hasSelection (setSelectionMode .full s) = true) ∧
    (∀ s : SelState, hasSelection (setSelectionMode .rectangle s) = false) ∧
    (∀ s : SelState, s.selectionMode = .rectangle → hasSelection s = false →
      (∀ b p, hasSelection (handleMouseDown b p s) = false) ∧
      (∀ p, hasSelection (handleMouseMove p s) = false) ∧
      hasSelection (handleRightClick s) = false ∧
      (∀ rd, hasSelection (clearSelection rd s) = false) ∧
      (∀ b, hasSelection (handleMouseUp b s) = true →
        ∃ sp cp, s.startPoint = some sp ∧ s.currentPoint = some cp ∧
          5 ≤ |cp.x - sp.x| ∧ 5 ≤ |cp.y - sp.y|)) := by
  refine ⟨?_, ?_, ?_⟩
  · intro s hne
    simp [setSelectionMode, clearSelection, hasSelection, hne]
  · intro s
    simp [setSelectionMode, clearSelection, hasSelection]
  · intro s hmode hsel
    refine ⟨?_, ?_, ?_, ?_, ?_⟩
    · intro b p
      unfold handleMouseDown
      split
      · exact hsel
      · unfold hasSelection
        simp only
        rw [hmode]
        simp
    · intro p
      unfold handleMouseMove
      split
      · exact hsel
      · unfold hasSelection at hsel ⊢
        simp only
        rw [hmode] at hsel ⊢
        exact hsel
    · unfold handleRightClick
      rw [if_neg]
      · exact hsel
      · rintro ⟨hcon, -⟩
        rw [hsel] at hcon
        cases hcon
    · intro rd
      unfold clearSelection hasSelection
      rcases rd with _ | _
      · simp [hmode]
      · simp
    · intro b hup
      unfold handleMouseUp at hup
      by_cases hguard : b ≠ 0 ∨ !s.isSelecting
      · rw [if_pos hguard, hsel] at hup
        cases hup
      · rw [if_neg hguard] at hup
        rw [if_pos (by simpa using hmode)] at hup
        unfold finalizeRectangleSelection at hup
        cases hsp : s.startPoint with
        | none =>
          rw [hsp] at hup
          simp only at hup
          unfold hasSelection at hup hsel
          simp only at hup
          rw [hmode] at hup hsel
          rw [hsel] at hup
          cases hup
        | some sp =>
          cases hcp : s.currentPoint with
          | none =>
            rw [hsp, hcp] at hup
            simp only at hup
            unfold hasSelection at hup hsel
            simp only at hup
            rw [hmode] at hup hsel
            rw [hsel] at hup
            cases hup
          | some cp =>
            rw [hsp, hcp] at hup
            simp only at hup
            by_cases hsmall : |cp.x - sp.x| < 5 ∨ |cp.y - sp.y| < 5
            · rw [if_pos hsmall] at hup
              rw [hasSelection_clearSelection_ne_full false _ (by simp [hmode])] at hup
              cases hup
            · rw [if_neg hsmall] at hup
              push_neg at hsmall
              exact ⟨sp, cp, rfl, rfl, hsmall.1, hsmall.2⟩

/-- C9 (counterexample): when a Full-mode selection is confirmed,
right-click runs the clear, but in Full mode the clear keeps the confirmed
flag, so `hasSelection()` is still true afterwards. -/
theorem rightclick_full_counterexample :
    hasSelection (setSelectionMode .full selInit) = true ∧
    hasSelection (handleRightClick (setSelectionMode .full selInit)) = true := by
  exact ⟨rfl, rfl⟩

/-- C9 (amended): right-click is a no-op exactly when `hasSelection()` is
false (protecting in-progress drags); when a selection exists it runs the
clear, which makes `hasSelection()` false in Rectangle/Freehand mode but
leaves it true in Full mode. -/
theorem handleRightClick_spec (s : SelState) :
    (hasSelection s = false → handleRightClick s = s) ∧
    (hasSelection s = true → s.selectionMode ≠ .full →
      hasSelection (handleRightClick s) = false) ∧
    (hasSelection s = true → s.selectionMode = .full →
      hasSelection (handleRightClick s) = true) := by
  refine ⟨?_, ?_, ?_⟩
  · intro hsel
    unfold handleRightClick
    rw [if_neg]
    rintro ⟨hcon, -⟩
    rw [hsel] at hcon
    cases hcon
  · intro hsel hne
    unfold handleRightClick
    rw [if_pos ⟨hsel, isConfirmed_of_hasSelection hsel⟩]
    unfold clearSelection hasSelection
    simp only [Bool.false_eq_true, if_false]
    rw [if_pos (by simpa using hne)]
    simp only
    cases hmode : s.selectionMode
    · rfl
    · rfl
    · exact absurd hmode hne
  · intro hsel hfull
    unfold handleRightClick
    rw [if_pos ⟨hsel, isConfirmed_of_hasSelection hsel⟩]
    unfold clearSelection hasSelection
    simp only [Bool.false_eq_true, if_false]
    rw [if_neg (by simp [hfull])]
    simp only
    rw [hfull]
    exact isConfirmed_of_hasSelection hsel

/-- C5: the "unconfirmed non-Full selection" error branch of
`processImage` can never fire (its test contradicts `hasSelection`), and
at the failing input — image loaded, Rectangle mode, no confirmed
selection — the code proceeds to apply an unmasked whole-image mosaic
(and hence pushes history) instead of failing as an invalid operation. -/
theorem processImage_guard_dead :
    (∀ (hasImage isProcessing : Bool) (sel : SelState),
      processImageOutcome hasImage isProcessing sel ≠ ProcessOutcome.invalidOp) ∧
    processImageOutcome true false (setSelectionMode .rectangle selInit) =
      ProcessOutcome.applied false := by
  refine ⟨?_, rfl⟩
  intro hasImage isProcessing sel
  unfold processImageOutcome
  split
  · intro hcon; cases hcon
  · rw [if_neg]
    · intro hcon; cases hcon
    · rintro ⟨-, hsel, hnc⟩
      rw [isSelectionConfirmed_of_hasSelection hsel] at hnc
      cases hnc

end MosaicApp
namespace MosaicApp

lemma foldl_mouseMove_rectangle (ps : List Pt) :
    ∀ (s : SelState) (q : Pt), s.isSelecting = true →
      s.selectionMode = .rectangle → s.currentPoint = some q →
      ps.foldl (fun s p => handleMouseMove p s) s =
        { s with currentPoint := some (ps.getLastD q) } := by
  induction ps with
  | nil =>
    intro s q _ _ hq
    rw [List.foldl_nil, show ([] : List Pt).getLastD q = q from rfl, ← hq]
  | cons p ps ih =>
    intro s q hsel hmode hq
    rw [List.foldl_cons]
    have hmv : handleMouseMove p s = { s with currentPoint := some p } := by
      unfold handleMouseMove
      rw [if_neg (by simp [hsel])]
      rw [if_neg (by rw [hmode]; intro hcon; cases hcon)]
    rw [hmv, ih _ p (by simpa using hsel) (by simpa using hmode) rfl,
      List.getLastD_cons]

lemma foldl_mouseMove_freehand (ps : List Pt) :
    ∀ (s : SelState) (q : Pt), s.isSelecting = true →
      s.selectionMode = .freehand → s.currentPoint = some q →
      ps.foldl (fun s p => handleMouseMove p s) s =
        { s with currentPoint := some (ps.getLastD q),
                 selectionPath := s.selectionPath ++ ps } := by
  induction ps with
  | nil =>
    intro s q _ _ hq
    rw [List.foldl_nil, show ([] : List Pt).getLastD q = q from rfl, ← hq,
      List.append_nil]
  | cons p ps ih =>
    intro s q hsel hmode hq
    rw [List.foldl_cons]
    have hmv : handleMouseMove p s =
        { s with currentPoint := some p,
                 selectionPath := s.selectionPath ++ [p] } := by
      unfold handleMouseMove
      rw [if_neg (by simp [hsel]), if_pos hmode]
    rw [hmv, ih _ p (by simpa using hsel) (by simpa using hmode) rfl,
      List.getLastD_cons]
    simp

/-- C7: ending a drag from `S` (with recorded move points `ps`, so the
final pointer position is the last of them, or `S` itself) stores, in
Rectangle mode, the axis-aligned box of start and end — unless its width
or height is below 5 image pixels, in which case the selection is cleared;
in Freehand mode a path of fewer than 10 recorded points is cleared, and
otherwise closed by appending its first point and confirmed. -/
theorem finalize_drag_spec :
    (∀ (s : SelState) (S : Pt) (ps : List Pt), s.selectionMode = .rectangle →
      ((|((ps.getLastD S).x - S.x)| < 5 ∨ |((ps.getLastD S).y - S.y)| < 5) →
        hasSelection (handleMouseUp 0 (ps.foldl (fun s p => handleMouseMove p s)
            (handleMouseDown 0 S s))) = false ∧
        (handleMouseUp 0 (ps.foldl (fun s p => handleMouseMove p s)
            (handleMouseDown 0 S s))).rectangleSelection = none ∧
        (handleMouseUp 0 (ps.foldl (fun s p => handleMouseMove p s)
            (handleMouseDown 0 S s))).isConfirmed = false) ∧
      (5 ≤ |((ps.getLastD S).x - S.x)| → 5 ≤ |((ps.getLastD S).y - S.y)| →
        (handleMouseUp 0 (ps.foldl (fun s p => handleMouseMove p s)
            (handleMouseDown 0 S s))).rectangleSelection =
          some { x := min S.x (ps.getLastD S).x, y := min S.y (ps.getLastD S).y,
                 width := |((ps.getLastD S).x - S.x)|,
                 height := |((ps.getLastD S).y - S.y)| } ∧
        (handleMouseUp 0 (ps.foldl (fun s p => handleMouseMove p s)
            (handleMouseDown 0 S s))).isConfirmed = true ∧
        hasSelection (handleMouseUp 0 (ps.foldl (fun s p => handleMouseMove p s)
            (handleMouseDown 0 S s))) = true)) ∧
    (∀ (s : SelState) (S : Pt) (ps : List Pt), s.selectionMode = .freehand →
      (ps.length + 1 < 10 →
        hasSelection (handleMouseUp 0 (ps.foldl (fun s p => handleMouseMove p s)
            (handleMouseDown 0 S s))) = false ∧
        (handleMouseUp 0 (ps.foldl (fun s p => handleMouseMove p s)
            (handleMouseDown 0 S s))).selectionPath = [] ∧
        (handleMouseUp 0 (ps.foldl (fun s p => handleMouseMove p s)
            (handleMouseDown 0 S s))).isConfirmed = false) ∧
      (10 ≤ ps.length + 1 →
        (handleMouseUp 0 (ps.foldl (fun s p => handleMouseMove p s)
            (handleMouseDown 0 S s))).selectionPath = (S :: ps) ++ [S] ∧
        (handleMouseUp 0 (ps.foldl (fun s p => handleMouseMove p s)
            (handleMouseDown 0 S s))).isConfirmed = true ∧
        hasSelection (handleMouseUp 0 (ps.foldl (fun s p => handleMouseMove p s)
            (handleMouseDown 0 S s))) = true)) := by
  constructor
  · intro s S ps hmode
    have hdown : handleMouseDown 0 S s =
        { s with startPoint := some S, currentPoint := some S,
                 isSelecting := true, isConfirmed := false } := by
      unfold handleMouseDown
      rw [if_neg (by omega), if_neg (by rw [hmode]; intro hcon; cases hcon)]
    have hfold := foldl_mouseMove_rectangle ps
      { s with startPoint := some S, currentPoint := some S,
               isSelecting := true, isConfirmed := false } S rfl
      (by simpa using hmode) rfl
    have hup : handleMouseUp 0 (ps.foldl (fun s p => handleMouseMove p s)
        (handleMouseDown 0 S s)) =
        finalizeRectangleSelection
          { s with startPoint := some S, currentPoint := some (ps.getLastD S),
                   isSelecting := false, isConfirmed := false } := by
      rw [hdown, hfold]
      unfold handleMouseUp
      rw [if_neg (by simp), if_pos (by simpa using hmode)]
    rw [hup]
    unfold finalizeRectangleSelection
    simp only
    by_cases hsmall : |((ps.getLastD S).x - S.x)| < 5 ∨ |((ps.getLastD S).y - S.y)| < 5
    · rw [if_pos hsmall]
      refine ⟨fun _ => ⟨?_, ?_, ?_⟩, fun h1 h2 => absurd hsmall (by
        push_neg
        exact ⟨h1, h2⟩)⟩
      · exact hasSelection_clearSelection_ne_full false _ (by simp [hmode])
      · unfold clearSelection
        simp only [Bool.false_eq_true, if_false]
        rw [if_pos (by simp [hmode])]
      · unfold clearSelection
        simp only [Bool.false_eq_true, if_false]
        rw [if_pos (by simp [hmode])]
    · rw [if_neg hsmall]
      refine ⟨fun hcon => absurd hcon hsmall, fun h1 h2 => ⟨rfl, rfl, ?_⟩⟩
      unfold hasSelection
      simp only
      rw [hmode]
      rfl
  · intro s S ps hmode
    have hdown : handleMouseDown 0 S s =
        { s with startPoint := some S, currentPoint := some S,
                 isSelecting := true, isConfirmed := false,
                 selectionPath := [S] } := by
      unfold handleMouseDown
      rw [if_neg (by omega), if_pos hmode]
    have hfold := foldl_mouseMove_freehand ps
      { s with startPoint := some S, currentPoint := some S,
               isSelecting := true, isConfirmed := false,
               selectionPath := [S] } S rfl (by simpa using hmode) rfl
    have hup : handleMouseUp 0 (ps.foldl (fun s p => handleMouseMove p s)
        (handleMouseDown 0 S s)) =
        finalizeFreehandSelection
          { s with startPoint := some S, currentPoint := some (ps.getLastD S),
                   isSelecting := false, isConfirmed := false,
                   selectionPath := S :: ps } := by
      rw [hdown, hfold]
      unfold handleMouseUp
      rw [if_neg (by simp), if_neg (by simp [hmode]), if_pos (by simp [hmode])]
      rfl
    rw [hup]
    unfold finalizeFreehandSelection
    simp only [List.length_cons]
    by_cases hlen : ps.length + 1 < 10
    · rw [if_pos hlen]
      refine ⟨fun _ => ⟨?_, ?_, ?_⟩, fun hcon => absurd hlen (by omega)⟩
      · exact hasSelection_clearSelection_ne_full false _ (by simp [hmode])
      · unfold clearSelection
        simp only [Bool.false_eq_true, if_false]
        rw [if_pos (by simp [hmode])]
      · unfold clearSelection
        simp only [Bool.false_eq_true, if_false]
        rw [if_pos (by simp [hmode])]
    · rw [if_neg hlen]
      refine ⟨fun hcon => absurd hcon hlen, fun h1 => ⟨rfl, rfl, ?_⟩⟩
      unfold hasSelection
      simp only
      rw [hmode]
      simp

end MosaicApp
namespace MosaicApp

theorem processMosaic_spec_witness :
    (1 ≤ 2 ∧ imgEx.data.length = imgEx.width * imgEx.height * 4 ∧
      ∀ v ∈ imgEx.data, v ≤ 255) ∧
    (processMosaic imgEx 2).data.getD (pixIndex imgEx.width 1 1 + 0) 0 =
      channelOf (calculateAverageColor imgEx.data (1 / 2 * 2) (1 / 2 * 2) 2
        imgEx.width imgEx.height) 0 ∧
    (processMosaic imgEx 2).data.getD (pixIndex imgEx.width 1 1 + 3) 0 =
      imgEx.data.getD (pixIndex imgEx.width 1 1 + 3) 0 :=
  ⟨⟨by decide, by decide, by decide⟩,
   (processMosaic_spec imgEx 2 (by decide) (by decide) (by decide)).2.2.2.1 1 1 0
     (by decide) (by decide) (by decide),
   (processMosaic_spec imgEx 2 (by decide) (by decide) (by decide)).2.2.2.2 1 1
     (by decide) (by decide)⟩

theorem processMosaicWithMask_spec_witness :
    (1 ≤ 2 ∧ imgEx.data.length = imgEx.width * imgEx.height * 4 ∧
      (∀ v ∈ imgEx.data, v ≤ 255) ∧
      maskEx.width = imgEx.width ∧ maskEx.height = imgEx.height) ∧
    (processMosaicWithMask imgEx 2 maskEx).data.length = imgEx.data.length ∧
    (processMosaicWithMask imgEx 2 maskEx).data.getD (pixIndex imgEx.width 1 1 + 3) 0 =
      imgEx.data.getD (pixIndex imgEx.width 1 1 + 3) 0 :=
  ⟨⟨by decide, by decide, by decide, by decide, by decide⟩,
   (processMosaicWithMask_spec imgEx 2 maskEx (by decide) (by decide) (by decide)
     (by decide) (by decide)).2.2.1,
   (processMosaicWithMask_spec imgEx 2 maskEx (by decide) (by decide) (by decide)
     (by decide) (by decide)).2.2.2.2 1 1 (by decide) (by decide)⟩

theorem saveState_spec_witness :
    ((historyNew 3).currentIndex ≤ ((historyNew 3).history.length : Int) - 1 ∧
      [(imgEx, "a"), (imgEx, "b")].length = 1 + 1 ∧ 1 ≤ 1) ∧
    saveState (historyNew 3) imgEx "a" =
      { history := [mkEntry imgEx "a"], currentIndex := 0, maxHistorySize := 3 } ∧
    (pushAll (historyNew 1) [(imgEx, "a"), (imgEx, "b")]).history =
      ([(imgEx, "a"), (imgEx, "b")].map fun p => mkEntry p.1 p.2).drop 1 ∧
    (pushAll (historyNew 1) [(imgEx, "a"), (imgEx, "b")]).history.length = 1 ∧
    (pushAll (historyNew 1) [(imgEx, "a"), (imgEx, "b")]).currentIndex =
      ((1 : Nat) : Int) - 1 :=
  ⟨⟨by decide, by decide, by decide⟩,
   (saveState_spec.1 (historyNew 3) imgEx "a" (by decide)).trans (by decide),
   saveState_spec.2 1 1 [(imgEx, "a"), (imgEx, "b")] (by decide) (by decide)⟩

theorem undo_redo_roundtrip_witness :
    (0 < histEx.currentIndex ∧ histEx.currentIndex < (histEx.history.length : Int)) ∧
    (redo (undo histEx).2).1 =
      (histEx.history[histEx.currentIndex.toNat]?).map (fun e => e.imageData) ∧
    (redo (undo histEx).2).2.currentIndex = histEx.currentIndex ∧
    (redo (undo histEx).2).2.history = histEx.history :=
  ⟨⟨by decide, by decide⟩, undo_redo_roundtrip histEx (by decide) (by decide)⟩

theorem processImage_guard_dead_witness :
    processImageOutcome true true selInit ≠ ProcessOutcome.invalidOp ∧
    processImageOutcome true false (setSelectionMode .rectangle selInit) =
      ProcessOutcome.applied false :=
  ⟨processImage_guard_dead.1 true true selInit, processImage_guard_dead.2⟩

theorem fullmode_confirmed_invariant_witness :
    ((setSelectionMode .full selInit).selectionMode = .full ∧
      (setSelectionMode .full selInit).isConfirmed = true ∧
      (∀ o ∈ opsEx, ∀ b p, o ≠ SelOp.mouseDown b p)) ∧
    hasSelection (applySelOps opsEx (setSelectionMode .full selInit)) = true ∧
    hasSelection (clearSelectionKeepMode
      (applySelOps opsEx (setSelectionMode .full selInit))) = false :=
  ⟨⟨rfl, rfl, by intro o ho b p; fin_cases ho <;> simp⟩,
   (fullmode_confirmed_invariant _ opsEx rfl rfl
     (by intro o ho b p; fin_cases ho <;> simp)).2.2.1,
   (fullmode_confirmed_invariant _ opsEx rfl rfl
     (by intro o ho b p; fin_cases ho <;> simp)).2.2.2.1⟩

theorem finalize_drag_spec_witness :
    (selInit.selectionMode = .rectangle ∧
      (setSelectionMode .freehand selInit).selectionMode = .freehand ∧
      5 ≤ |((([({ x := 10, y := 10 } : Pt)] : List Pt).getLastD
        { x := 0, y := 0 }).x - ({ x := 0, y := 0 } : Pt).x)| ∧
      ps8.length + 1 < 10) ∧
    (handleMouseUp 0 ([({ x := 10, y := 10 } : Pt)].foldl
        (fun s p => handleMouseMove p s)
        (handleMouseDown 0 { x := 0, y := 0 } selInit))).rectangleSelection =
      some { x := min ({ x := 0, y := 0 } : Pt).x
                (([({ x := 10, y := 10 } : Pt)].getLastD { x := 0, y := 0 }).x),
             y := min ({ x := 0, y := 0 } : Pt).y
                (([({ x := 10, y := 10 } : Pt)].getLastD { x := 0, y := 0 }).y),
             width := |(([({ x := 10, y := 10 } : Pt)].getLastD
                { x := 0, y := 0 }).x - ({ x := 0, y := 0 } : Pt).x)|,
             height := |(([({ x := 10, y := 10 } : Pt)].getLastD
                { x := 0, y := 0 }).y - ({ x := 0, y := 0 } : Pt).y)| } ∧
    hasSelection (handleMouseUp 0 (ps8.foldl (fun s p => handleMouseMove p s)
      (handleMouseDown 0 { x := 0, y := 0 }
        (setSelectionMode .freehand selInit)))) = false :=
  ⟨⟨rfl, rfl, by norm_num [List.getLastD, abs_of_nonneg], by decide⟩,
   ((finalize_drag_spec.1 selInit { x := 0, y := 0 }
      [({ x := 10, y := 10 } : Pt)] rfl).2
      (by norm_num [List.getLastD, abs_of_nonneg])
      (by norm_num [List.getLastD, abs_of_nonneg])).1,
   ((finalize_drag_spec.2 (setSelectionMode .freehand selInit) { x := 0, y := 0 }
      ps8 rfl).1 (by decide)).1⟩

theorem setSelectionMode_spec_witness :
    (selInit.selectionMode ≠ .full ∧
      (setSelectionMode .rectangle selInit).selectionMode = .rectangle ∧
      hasSelection (setSelectionMode .rectangle selInit) = false) ∧
    hasSelection (setSelectionMode .full selInit) = true ∧
    hasSelection (setSelectionMode .rectangle selInit) = false ∧
    hasSelection (handleRightClick (setSelectionMode .rectangle selInit)) = false :=
  ⟨⟨by decide, rfl, rfl⟩,
   setSelectionMode_spec.1 selInit (by decide),
   setSelectionMode_spec.2.1 selInit,
   (setSelectionMode_spec.2.2 (setSelectionMode .rectangle selInit) rfl rfl).2.2.1⟩

theorem handleRightClick_spec_witness :
    (hasSelection selInit = false ∧
      hasSelection (setSelectionMode .full selInit) = true ∧
      (setSelectionMode .full selInit).selectionMode = .full) ∧
    handleRightClick selInit = selInit ∧
    hasSelection (handleRightClick (setSelectionMode .full selInit)) = true :=
  ⟨⟨rfl, rfl, rfl⟩, (handleRightClick_spec selInit).1 rfl,
   (handleRightClick_spec (setSelectionMode .full selInit)).2.2 rfl rfl⟩

end MosaicApp
namespace MosaicApp

theorem clearHistory_spec_witness :
    (clearHistory histEx).history = [] ∧
    (clearHistory histEx).currentIndex = -1 ∧
    canUndo (clearHistory histEx) = false ∧
    canRedo (clearHistory histEx) = false ∧
    getCurrentActionName (clearHistory histEx) = none ∧
    undo (clearHistory histEx) = (none, clearHistory histEx) ∧
    redo (clearHistory histEx) = (none, clearHistory histEx) :=
  clearHistory_spec histEx

end MosaicApp
